import Mathlib

/-!
Verification of the availability-reconciliation engine of the `clippy` CLI
(`src/commands/freebusy.ts`).

Modelling conventions (shallow embedding):

* A JavaScript `Date` used as an instant is modelled as an `Int`: milliseconds
  on a timezone-naive wall-clock axis (the tool is single-timezone; only
  comparisons, subtraction, and `setHours` on a midnight base are ever used).
* `new Date(d); x.setHours(h, 0, 0, 0)` applied to a midnight instant `d`
  (which is what `getDateRange` produces for `dayStart`) is `d + h * 3600000`.
* Statuses are the literal strings the code compares against (`"Free"`,
  `"Busy"`, `"Tentative"`, ...).
* `Array.prototype.sort` with comparator `(a, b) => a.start - b.start` is a
  stable sort ordering by `start`; its output is the unique permutation that
  is sorted by `start` with ties kept in input order, so it is modelled by
  Mathlib's stable `List.insertionSort` with relation `a.start ≤ b.start`.
* `findBusyFromFreeSlots` in the source renders `startTime` / `endTime`
  through `formatTime` (a locale string of the instant); the embedding keeps
  the underlying instants, which the claims are about.
* `getDateRange` manipulates calendar days (`setDate`, `setHours`); for it a
  `Date` is modelled as a day index plus milliseconds within the day, and the
  host-defined `new Date(string)` parser is an explicit parameter returning
  `none` where JavaScript yields `NaN`.
-/

namespace Clippy

/-- A slot from `getFreeBusy` (`FreeBusySlot` in `owa-client.ts`): `start` and
`end` are instants (the source stores ISO strings and re-parses them with
`new Date`; the unused `subject` display label is omitted). `end` is named
`stop` because `end` is a Lean keyword. -/
structure FreeBusySlot where
  status : String
  start : Int
  stop : Int
deriving Repr, DecidableEq

/-- A half-open interval `[start, stop)` of instants, as produced by
`findFreeSlots` (`{ start: Date; end: Date }` in the source). -/
structure Interval where
  start : Int
  stop : Int
deriving Repr, DecidableEq

/-- An entry of `findBusyFromFreeSlots`' result: the source emits
`{ startTime, endTime, status }` where the two times are `formatTime`
renderings of instants; the embedding keeps the instants themselves. -/
structure BusyOut where
  startTime : Int
  endTime : Int
  status : String
deriving Repr, DecidableEq

/-- A `ScheduleItem` from the Graph/Outlook schedule response: the source's
nested `start.dateTime` / `end.dateTime` strings are parsed with `new Date`;
the embedding keeps the parsed instants (`timeZone` is never read). -/
structure ScheduleItem where
  status : String
  start : Int
  stop : Int
deriving Repr, DecidableEq

/-- A block of `parseAvailabilityView`'s result
(`{ start: Date; end: Date; status: string }`). -/
structure AvailBlock where
  start : Int
  stop : Int
  status : String
deriving Repr, DecidableEq

/-- `const x = new Date(dayStart); x.setHours(h, 0, 0, 0)` where `dayStart`
is a midnight instant: `dayStart + h * 3600000`. -/
def atHour (dayStart h : Int) : Int :=
  dayStart + h * 3600000

instance decRelIntervalStartLe : DecidableRel (fun a b : Interval => a.start ≤ b.start) :=
  fun a b => Int.decLe a.start b.start

instance isTotalIntervalStartLe : IsTotal Interval (fun a b : Interval => a.start ≤ b.start) :=
  ⟨fun a b => Int.le_total a.start b.start⟩

instance isTransIntervalStartLe : IsTrans Interval (fun a b : Interval => a.start ≤ b.start) :=
  ⟨fun _ _ _ h h' => le_trans h h'⟩

/-- `.sort((a, b) => a.start.getTime() - b.start.getTime())`: stable sort by
`start` (see module comment). -/
def sortByStart (l : List Interval) : List Interval :=
  l.insertionSort (fun a b => a.start ≤ b.start)

/-- The loop of `findFreeSlots` (freebusy.ts lines 77-94): iterate over the
sorted busy slots with the cursor `current`; skip slots outside working
hours, clamp the rest, emit `[current, busyStart)` when the clamped start
exceeds the cursor, advance the cursor monotonically, and finally emit the
trailing free interval up to `workingEnd`. -/
def freeSweep (workingStart workingEnd : Int) : Int → List Interval → List Interval
  | current, [] =>
    if current < workingEnd then [⟨current, workingEnd⟩] else []
  | current, busy :: rest =>
    if busy.stop ≤ workingStart ∨ busy.start ≥ workingEnd then
      freeSweep workingStart workingEnd current rest
    else
      let busyStart := if busy.start < workingStart then workingStart else busy.start
      let busyStop := if busy.stop > workingEnd then workingEnd else busy.stop
      let next := if busyStop > current then busyStop else current
      if busyStart > current then
        ⟨current, busyStart⟩ :: freeSweep workingStart workingEnd next rest
      else
        freeSweep workingStart workingEnd next rest

/-- `findFreeSlots` (freebusy.ts lines 52-97): set the working-hours window,
keep the non-`Free` slots, sort them by start, and sweep. -/
def findFreeSlots (slots : List FreeBusySlot) (dayStart workStart workEnd : Int) :
    List Interval :=
  let workingStart := atHour dayStart workStart
  let workingEnd := atHour dayStart workEnd
  let busySlots :=
    sortByStart ((slots.filter (fun s => s.status != "Free")).map
      (fun s => ⟨s.start, s.stop⟩))
  freeSweep workingStart workingEnd workingStart busySlots

/-- The loop of `findBusyFromFreeSlots` (freebusy.ts lines 300-323): iterate
over the sorted free slots, clamp each to working hours, emit the gap
`[current, freeStart)` with status `Busy` when the clamped start exceeds the
cursor, advance the cursor monotonically, and finally emit the trailing busy
gap up to `workEnd`. -/
def gapSweep (workStart workEnd : Int) : Int → List Interval → List BusyOut
  | current, [] =>
    if current < workEnd then [⟨current, workEnd, "Busy"⟩] else []
  | current, free :: rest =>
    let freeStart := if free.start < workStart then workStart else free.start
    let freeStop := if free.stop > workEnd then workEnd else free.stop
    let next := if freeStop > current then freeStop else current
    if freeStart > current then
      ⟨current, freeStart, "Busy"⟩ :: gapSweep workStart workEnd next rest
    else
      gapSweep workStart workEnd next rest

/-- `findBusyFromFreeSlots` (freebusy.ts lines 274-326): set the
working-hours window, keep the `Free` items, keep those overlapping the
window, sort by start, and sweep the gaps. -/
def findBusyFromFreeSlots (freeItems : List ScheduleItem)
    (dayStart workStartHour workEndHour : Int) : List BusyOut :=
  let workStart := atHour dayStart workStartHour
  let workEnd := atHour dayStart workEndHour
  let freeSlots :=
    sortByStart
      (((freeItems.filter (fun i => i.status == "Free")).map
          (fun i => ⟨i.start, i.stop⟩)).filter
        (fun s => decide (s.stop > workStart) && decide (s.start < workEnd)))
  gapSweep workStart workEnd workStart freeSlots

/-- The `statusMap` record lookup with its `|| 'Unknown'` fallback
(freebusy.ts lines 329-335, 342). -/
def statusMapLookup (c : Char) : String :=
  if c = '0' then "Free"
  else if c = '1' then "Tentative"
  else if c = '2' then "Busy"
  else if c = '3' then "Out of Office"
  else if c = '4' then "Working Elsewhere"
  else "Unknown"

/-- The loop of `parseAvailabilityView` (freebusy.ts lines 340-361): walk
the buckets with index `i`; a `Free` bucket closes any open run, a bucket of
a different status closes the open run and starts a new one of one bucket's
width, a bucket of the same status extends the open run, and the open run is
flushed at the end. -/
def pavGo (startDate intervalMinutes : Int) : Nat → Option AvailBlock → List Char → List AvailBlock
  | _, none, [] => []
  | _, some c, [] => [c]
  | i, cur, ch :: rest =>
    let time := startDate + (i : Int) * intervalMinutes * 60000
    let status := statusMapLookup ch
    if status = "Free" then
      match cur with
      | some c => c :: pavGo startDate intervalMinutes (i + 1) none rest
      | none => pavGo startDate intervalMinutes (i + 1) none rest
    else
      match cur with
      | none =>
        pavGo startDate intervalMinutes (i + 1)
          (some ⟨time, time + intervalMinutes * 60000, status⟩) rest
      | some c =>
        if c.status ≠ status then
          c :: pavGo startDate intervalMinutes (i + 1)
            (some ⟨time, time + intervalMinutes * 60000, status⟩) rest
        else
          pavGo startDate intervalMinutes (i + 1)
            (some ⟨c.start, time + intervalMinutes * 60000, c.status⟩) rest

/-- `parseAvailabilityView` (freebusy.ts lines 328-362). -/
def parseAvailabilityView (view : String) (startDate intervalMinutes : Int) :
    List AvailBlock :=
  pavGo startDate intervalMinutes 0 none view.toList

/-- A `Date` for `getDateRange`: calendar-day index plus milliseconds within
the day (timezone-naive; `setDate(d + 1)` is `day + 1`, `setHours` replaces
`msOfDay`). -/
structure JsDate where
  day : Int
  msOfDay : Int
deriving Repr, DecidableEq

/-- `day.toLowerCase()`: character-wise lowercasing (the keywords compared
against are ASCII, where JavaScript's `toLowerCase` and `Char.toLower`
agree). -/
def jsToLowerCase (s : String) : String :=
  String.mk (s.toList.map Char.toLower)

/-- `getDateRange` (freebusy.ts lines 24-50): switch on the lowercased day
keyword; `today` keeps `now`, `tomorrow` is the next day, anything else is
handed to the host date parser (`parseDate`, abstract because `new
Date(string)` parsing is host-defined) and falls back to `now` when the
parse is invalid (`isNaN(targetDate.getTime())`); the range is
`[targetDate@00:00:00.000, targetDate@23:59:59.999]`. -/
def getDateRange (parseDate : String → Option JsDate) (now : JsDate) (day : String) :
    JsDate × JsDate :=
  let targetDate :=
    if jsToLowerCase day = "today" then now
    else if jsToLowerCase day = "tomorrow" then ⟨now.day + 1, now.msOfDay⟩
    else
      match parseDate day with
      | some d => d
      | none => now
  (⟨targetDate.day, 0⟩, ⟨targetDate.day, 86399999⟩)

/-- The duration computation of `freebusyCommand` (freebusy.ts line 246):
`Math.round((end - start) / 60000)`, i.e. `⌊((end - start) + 30000) / 60000⌋`
(Lean's `Int` division is floor division for a positive divisor). -/
def durationMinutes (startMs stopMs : Int) : Int :=
  ((stopMs - startMs) + 30000) / 60000

/-- The duration rendering of `freebusyCommand` (freebusy.ts lines 246-249).
`Math.floor(duration / 60)` is floor division; JavaScript `%` is truncating
remainder, i.e. `Int.tmod`. -/
def durationString (startMs stopMs : Int) : String :=
  let duration := durationMinutes startMs stopMs
  let hours := duration / 60
  let mins := Int.tmod duration 60
  if hours > 0 then
    toString hours ++ "h" ++ (if mins > 0 then " " ++ toString mins ++ "m" else "")
  else
    toString mins ++ "m"

/-! Helper notions for stating and proving the claims. -/

/-- Membership of an instant in the union of a list of intervals. -/
def memU (l : List Interval) (t : Int) : Prop :=
  ∃ iv ∈ l, iv.start ≤ t ∧ t < iv.stop

/-- Membership of an instant in the union of a list of busy gaps. -/
def memUB (l : List BusyOut) (t : Int) : Prop :=
  ∃ o ∈ l, o.startTime ≤ t ∧ t < o.endTime

/-- The instant `t` is covered by some non-`Free` input slot. -/
def busyCovers (slots : List FreeBusySlot) (t : Int) : Prop :=
  ∃ s ∈ slots, s.status ≠ "Free" ∧ s.start ≤ t ∧ t < s.stop

/-- The instant `t` is covered by some `Free` schedule item. -/
def freeCovers (items : List ScheduleItem) (t : Int) : Prop :=
  ∃ i ∈ items, i.status = "Free" ∧ i.start ≤ t ∧ t < i.stop

/-- Proof-side core of both sweeps: same clamping and cursor discipline as
`freeSweep` / `gapSweep`, with `max` / `min` in place of the source's
conditionals and no skip test (the bridge lemmas below relate the mirrored
definitions to this one). -/
def sweepGaps (wS wE : Int) : Int → List Interval → List Interval
  | current, [] =>
    if current < wE then [⟨current, wE⟩] else []
  | current, f :: rest =>
    if max f.start wS > current then
      ⟨current, max f.start wS⟩ :: sweepGaps wS wE (max current (min f.stop wE)) rest
    else
      sweepGaps wS wE (max current (min f.stop wE)) rest

lemma if_lt_eq_max (a w : Int) : (if a < w then w else a) = max a w := by
  rcases le_or_lt w a with h | h
  · rw [if_neg (not_lt.mpr h), max_eq_left h]
  · rw [if_pos h, max_eq_right h.le]

lemma if_gt_eq_min (a w : Int) : (if a > w then w else a) = min a w := by
  rcases le_or_lt a w with h | h
  · rw [if_neg (not_lt.mpr h), min_eq_left h]
  · rw [if_pos h, min_eq_right h.le]

lemma if_gt_eq_max (e c : Int) : (if e > c then e else c) = max c e := by
  rcases le_or_lt e c with h | h
  · rw [if_neg (not_lt.mpr h), max_eq_left h]
  · rw [if_pos h, max_eq_right h.le]

/-- `freeSweep`'s in-loop skip test is the same as running the common sweep
core on the list with the out-of-window slots filtered away. -/
lemma freeSweep_eq_sweepGaps (wS wE : Int) :
    ∀ (l : List Interval) (current : Int),
      freeSweep wS wE current l =
        sweepGaps wS wE current
          (l.filter (fun b => decide (b.stop > wS) && decide (b.start < wE))) := by
  intro l
  induction l with
  | nil => intro current; rfl
  | cons b rest ih =>
    intro current
    by_cases hskip : b.stop ≤ wS ∨ b.start ≥ wE
    · have hp : (decide (b.stop > wS) && decide (b.start < wE)) = false := by
        rcases hskip with h | h <;> simp [not_lt.mpr h]
      have hfilter :
          List.filter (fun b => decide (b.stop > wS) && decide (b.start < wE)) (b :: rest) =
            List.filter (fun b => decide (b.stop > wS) && decide (b.start < wE)) rest := by
        rw [List.filter_cons]
        simp [hp]
      rw [hfilter]
      simp only [freeSweep, if_pos hskip]
      exact ih current
    · have hp : (decide (b.stop > wS) && decide (b.start < wE)) = true := by
        push_neg at hskip
        simp [hskip.1, hskip.2]
      have hfilter :
          List.filter (fun b => decide (b.stop > wS) && decide (b.start < wE)) (b :: rest) =
            b :: List.filter (fun b => decide (b.stop > wS) && decide (b.start < wE)) rest := by
        rw [List.filter_cons]
        simp [hp]
      rw [hfilter]
      simp only [freeSweep, if_neg hskip, sweepGaps, if_lt_eq_max, if_gt_eq_min, if_gt_eq_max]
      rw [ih]

/-- `gapSweep` is the common sweep core with every emitted gap labelled
`Busy`. -/
lemma gapSweep_eq_sweepGaps (wS wE : Int) :
    ∀ (l : List Interval) (current : Int),
      gapSweep wS wE current l =
        (sweepGaps wS wE current l).map (fun iv => ⟨iv.start, iv.stop, "Busy"⟩) := by
  intro l
  induction l with
  | nil =>
    intro current
    simp only [gapSweep, sweepGaps]
    split <;> simp
  | cons f rest ih =>
    intro current
    simp only [gapSweep, sweepGaps, if_lt_eq_max, if_gt_eq_min, if_gt_eq_max]
    split <;> simp [ih]

/-- Every interval the sweep emits starts at or after the cursor, is
nonempty, and ends by the window end. -/
lemma sweepGaps_mem (wS wE : Int) :
    ∀ (l : List Interval) (current : Int), wS ≤ current →
      (∀ b ∈ l, b.start < wE) →
      ∀ iv ∈ sweepGaps wS wE current l,
        current ≤ iv.start ∧ iv.start < iv.stop ∧ iv.stop ≤ wE := by
  intro l
  induction l with
  | nil =>
    intro current _ _ iv hiv
    simp only [sweepGaps] at hiv
    split at hiv
    · rw [List.mem_singleton] at hiv
      subst hiv
      dsimp
      omega
    · simp at hiv
  | cons f rest ih =>
    intro current hcur hlt iv hiv
    have hf : f.start < wE := hlt f (List.mem_cons_self f rest)
    have hrest : ∀ b ∈ rest, b.start < wE := fun b hb => hlt b (List.mem_cons_of_mem f hb)
    simp only [sweepGaps] at hiv
    split at hiv
    · rename_i hemit
      rcases List.mem_cons.mp hiv with rfl | hiv
      · dsimp
        omega
      · have h2 := ih (max current (min f.stop wE)) (by omega) hrest iv hiv
        omega
    · have h2 := ih (max current (min f.stop wE)) (by omega) hrest iv hiv
      omega

/-- Coverage of the sweep: an instant lies in some emitted gap exactly when
it lies between the cursor and the window end and is covered by no input
interval (the input must be sorted by start). -/
lemma sweepGaps_cover (wS wE : Int) :
    ∀ (l : List Interval) (current : Int), wS ≤ current →
      (∀ b ∈ l, b.start < wE) →
      l.Pairwise (fun a b => a.start ≤ b.start) →
      ∀ t : Int,
        (∃ iv ∈ sweepGaps wS wE current l, iv.start ≤ t ∧ t < iv.stop) ↔
          (current ≤ t ∧ t < wE ∧ ∀ b ∈ l, ¬(b.start ≤ t ∧ t < b.stop)) := by
  intro l
  induction l with
  | nil =>
    intro current _ _ _ t
    simp only [sweepGaps]
    split
    · rename_i h
      simp only [List.mem_singleton, List.not_mem_nil]
      constructor
      · rintro ⟨iv, rfl, h1, h2⟩
        exact ⟨h1, h2, by simp⟩
      · rintro ⟨h1, h2, _⟩
        exact ⟨⟨current, wE⟩, rfl, h1, h2⟩
    · rename_i h
      simp only [List.not_mem_nil]
      constructor
      · rintro ⟨iv, hiv, _⟩
        simp at hiv
      · rintro ⟨h1, h2, _⟩
        omega
  | cons f rest ih =>
    intro current hcur hlt hsort t
    obtain ⟨hhead, htail⟩ := List.pairwise_cons.mp hsort
    have hf : f.start < wE := hlt f (List.mem_cons_self f rest)
    have hrest : ∀ b ∈ rest, b.start < wE := fun b hb => hlt b (List.mem_cons_of_mem f hb)
    have IH := ih (max current (min f.stop wE)) (by omega) hrest htail t
    simp only [sweepGaps]
    split
    · rename_i hemit
      constructor
      · rintro ⟨iv, hiv, hts, htt⟩
        rcases List.mem_cons.mp hiv with rfl | hiv
        · dsimp at hts htt
          refine ⟨hts, by omega, ?_⟩
          intro b hb
          rcases List.mem_cons.mp hb with rfl | hb
          · omega
          · have := hhead b hb
            omega
        · obtain ⟨h1, h2, h3⟩ := IH.mp ⟨iv, hiv, hts, htt⟩
          refine ⟨by omega, h2, ?_⟩
          intro b hb
          rcases List.mem_cons.mp hb with rfl | hb
          · omega
          · exact h3 b hb
      · rintro ⟨ht1, ht2, ht3⟩
        have hcovf := ht3 f (List.mem_cons_self f rest)
        by_cases hts : t < max f.start wS
        · exact ⟨⟨current, max f.start wS⟩, List.mem_cons_self _ _, ht1, hts⟩
        · obtain ⟨iv, hiv, hp⟩ :=
            IH.mpr ⟨by omega, ht2, fun b hb => ht3 b (List.mem_cons_of_mem f hb)⟩
          exact ⟨iv, List.mem_cons_of_mem _ hiv, hp⟩
    · rename_i hnoemit
      rw [IH]
      constructor
      · rintro ⟨h1, h2, h3⟩
        refine ⟨by omega, h2, ?_⟩
        intro b hb
        rcases List.mem_cons.mp hb with rfl | hb
        · omega
        · exact h3 b hb
      · rintro ⟨h1, h2, h3⟩
        have hcf := h3 f (List.mem_cons_self f rest)
        exact ⟨by omega, h2, fun b hb => h3 b (List.mem_cons_of_mem f hb)⟩

/-- With nonempty (well-formed) input intervals the emitted gaps are
strictly separated: each ends before the next starts. -/
lemma sweepGaps_pairwise_lt (wS wE : Int) :
    ∀ (l : List Interval) (current : Int), wS ≤ current →
      (∀ b ∈ l, b.start < wE) → (∀ b ∈ l, b.start < b.stop) →
      (sweepGaps wS wE current l).Pairwise (fun a b => a.stop < b.start) := by
  intro l
  induction l with
  | nil =>
    intro current _ _ _
    simp only [sweepGaps]
    split <;> simp
  | cons f rest ih =>
    intro current hcur hlt hwf
    have hf : f.start < wE := hlt f (List.mem_cons_self f rest)
    have hfw : f.start < f.stop := hwf f (List.mem_cons_self f rest)
    have hrest : ∀ b ∈ rest, b.start < wE := fun b hb => hlt b (List.mem_cons_of_mem f hb)
    have hrestw : ∀ b ∈ rest, b.start < b.stop := fun b hb => hwf b (List.mem_cons_of_mem f hb)
    simp only [sweepGaps]
    split
    · rename_i hemit
      refine List.Pairwise.cons ?_ (ih (max current (min f.stop wE)) (by omega) hrest hrestw)
      intro jv hjv
      have := sweepGaps_mem wS wE rest (max current (min f.stop wE)) (by omega) hrest jv hjv
      dsimp
      omega
    · exact ih (max current (min f.stop wE)) (by omega) hrest hrestw

/-- With possibly-empty but not inverted input intervals the emitted gaps
are still disjoint and in order: each ends at or before the next starts. -/
lemma sweepGaps_pairwise_le (wS wE : Int) :
    ∀ (l : List Interval) (current : Int), wS ≤ current →
      (∀ b ∈ l, b.start < wE) → (∀ b ∈ l, b.start ≤ b.stop) →
      (sweepGaps wS wE current l).Pairwise (fun a b => a.stop ≤ b.start) := by
  intro l
  induction l with
  | nil =>
    intro current _ _ _
    simp only [sweepGaps]
    split <;> simp
  | cons f rest ih =>
    intro current hcur hlt hwf
    have hf : f.start < wE := hlt f (List.mem_cons_self f rest)
    have hfw : f.start ≤ f.stop := hwf f (List.mem_cons_self f rest)
    have hrest : ∀ b ∈ rest, b.start < wE := fun b hb => hlt b (List.mem_cons_of_mem f hb)
    have hrestw : ∀ b ∈ rest, b.start ≤ b.stop := fun b hb => hwf b (List.mem_cons_of_mem f hb)
    simp only [sweepGaps]
    split
    · rename_i hemit
      refine List.Pairwise.cons ?_ (ih (max current (min f.stop wE)) (by omega) hrest hrestw)
      intro jv hjv
      have := sweepGaps_mem wS wE rest (max current (min f.stop wE)) (by omega) hrest jv hjv
      dsimp
      omega
    · exact ih (max current (min f.stop wE)) (by omega) hrest hrestw

lemma sortByStart_sorted (l : List Interval) :
    (sortByStart l).Pairwise (fun a b => a.start ≤ b.start) := by
  have h := List.sorted_insertionSort (fun a b : Interval => a.start ≤ b.start) l
  exact h

lemma sortByStart_mem {iv : Interval} {l : List Interval} :
    iv ∈ sortByStart l ↔ iv ∈ l :=
  (List.perm_insertionSort (fun a b => a.start ≤ b.start) l).mem_iff

/-- Coverage of `findFreeSlots`: an instant is in some returned free slot
exactly when it is inside the working-hours window and covered by no
non-`Free` input slot. -/
theorem findFreeSlots_cover (slots : List FreeBusySlot) (dayStart workStart workEnd t : Int) :
    memU (findFreeSlots slots dayStart workStart workEnd) t ↔
      (atHour dayStart workStart ≤ t ∧ t < atHour dayStart workEnd ∧
        ¬ busyCovers slots t) := by
  unfold findFreeSlots memU
  set wS := atHour dayStart workStart with hwS
  set wE := atHour dayStart workEnd with hwE
  set X := (slots.filter (fun s => s.status != "Free")).map
    (fun s : FreeBusySlot => (⟨s.start, s.stop⟩ : Interval)) with hX
  rw [freeSweep_eq_sweepGaps]
  set L := (sortByStart X).filter
    (fun b => decide (b.stop > wS) && decide (b.start < wE)) with hL
  have hsort : L.Pairwise (fun a b => a.start ≤ b.start) :=
    (sortByStart_sorted X).filter _
  have hlt : ∀ b ∈ L, b.start < wE := by
    intro b hb
    have hp := (List.mem_filter.mp hb).2
    simp only [Bool.and_eq_true, decide_eq_true_eq] at hp
    exact hp.2
  rw [sweepGaps_cover wS wE L wS le_rfl hlt hsort t]
  constructor
  · rintro ⟨h1, h2, h3⟩
    refine ⟨h1, h2, ?_⟩
    rintro ⟨s, hs, hsf, hst, hts⟩
    have hbX : (⟨s.start, s.stop⟩ : Interval) ∈ X :=
      List.mem_map.mpr ⟨s, List.mem_filter.mpr ⟨hs, by simpa [bne_iff_ne] using hsf⟩, rfl⟩
    have hbL : (⟨s.start, s.stop⟩ : Interval) ∈ L := by
      refine List.mem_filter.mpr ⟨sortByStart_mem.mpr hbX, ?_⟩
      simp only [Bool.and_eq_true, decide_eq_true_eq]
      constructor <;> dsimp <;> omega
    exact h3 _ hbL ⟨hst, hts⟩
  · rintro ⟨h1, h2, hn⟩
    refine ⟨h1, h2, ?_⟩
    intro b hb hcov
    have hbX := sortByStart_mem.mp (List.mem_filter.mp hb).1
    obtain ⟨s, hsF, rfl⟩ := List.mem_map.mp hbX
    have hm := List.mem_filter.mp hsF
    exact hn ⟨s, hm.1, by simpa [bne_iff_ne] using hm.2, hcov.1, hcov.2⟩

/-- Coverage of `findBusyFromFreeSlots`: an instant is in some returned busy
gap exactly when it is inside the working-hours window and covered by no
`Free` schedule item. -/
theorem findBusyFromFreeSlots_cover (items : List ScheduleItem) (dayStart wsH weH t : Int) :
    memUB (findBusyFromFreeSlots items dayStart wsH weH) t ↔
      (atHour dayStart wsH ≤ t ∧ t < atHour dayStart weH ∧ ¬ freeCovers items t) := by
  unfold findBusyFromFreeSlots memUB
  set wS := atHour dayStart wsH with hwS
  set wE := atHour dayStart weH with hwE
  set X := (items.filter (fun i => i.status == "Free")).map
    (fun i : ScheduleItem => (⟨i.start, i.stop⟩ : Interval)) with hX
  rw [gapSweep_eq_sweepGaps]
  set L := sortByStart
    (X.filter (fun s => decide (s.stop > wS) && decide (s.start < wE))) with hL
  have hmap :
      (∃ o ∈ (sweepGaps wS wE wS L).map
          (fun iv => (⟨iv.start, iv.stop, "Busy"⟩ : BusyOut)),
        o.startTime ≤ t ∧ t < o.endTime) ↔
        ∃ iv ∈ sweepGaps wS wE wS L, iv.start ≤ t ∧ t < iv.stop := by
    constructor
    · rintro ⟨o, ho, h1, h2⟩
      obtain ⟨iv, hiv, rfl⟩ := List.mem_map.mp ho
      exact ⟨iv, hiv, h1, h2⟩
    · rintro ⟨iv, hiv, h1, h2⟩
      exact ⟨_, List.mem_map_of_mem _ hiv, h1, h2⟩
  rw [hmap]
  have hsort : L.Pairwise (fun a b => a.start ≤ b.start) := sortByStart_sorted _
  have hlt : ∀ b ∈ L, b.start < wE := by
    intro b hb
    have hp := (List.mem_filter.mp (sortByStart_mem.mp hb)).2
    simp only [Bool.and_eq_true, decide_eq_true_eq] at hp
    exact hp.2
  rw [sweepGaps_cover wS wE L wS le_rfl hlt hsort t]
  constructor
  · rintro ⟨h1, h2, h3⟩
    refine ⟨h1, h2, ?_⟩
    rintro ⟨i, hi, hif, hit, hti⟩
    have hbX : (⟨i.start, i.stop⟩ : Interval) ∈ X :=
      List.mem_map.mpr ⟨i, List.mem_filter.mpr ⟨hi, by simpa using hif⟩, rfl⟩
    have hbL : (⟨i.start, i.stop⟩ : Interval) ∈ L := by
      refine sortByStart_mem.mpr (List.mem_filter.mpr ⟨hbX, ?_⟩)
      simp only [Bool.and_eq_true, decide_eq_true_eq]
      constructor <;> dsimp <;> omega
    exact h3 _ hbL ⟨hit, hti⟩
  · rintro ⟨h1, h2, hn⟩
    refine ⟨h1, h2, ?_⟩
    intro b hb hcov
    have hbX := (List.mem_filter.mp (sortByStart_mem.mp hb)).1
    obtain ⟨i, hiF, rfl⟩ := List.mem_map.mp hbX
    have hm := List.mem_filter.mp hiF
    exact hn ⟨i, hm.1, by simpa using hm.2, hcov.1, hcov.2⟩

/-- Two lists of nonempty, strictly separated, start-ascending intervals
with the same union are equal: a set of instants has a unique decomposition
into maximal intervals. -/
lemma separated_decomp_unique :
    ∀ (l1 l2 : List Interval),
      (∀ iv ∈ l1, iv.start < iv.stop) → (∀ iv ∈ l2, iv.start < iv.stop) →
      l1.Pairwise (fun a b => a.stop < b.start) →
      l2.Pairwise (fun a b => a.stop < b.start) →
      (∀ t, memU l1 t ↔ memU l2 t) → l1 = l2 := by
  intro l1
  induction l1 with
  | nil =>
    intro l2 _ hwf2 _ _ hU
    cases l2 with
    | nil => rfl
    | cons y ys =>
      exfalso
      have hy : memU (y :: ys) y.start :=
        ⟨y, List.mem_cons_self y ys, le_refl _, hwf2 y (List.mem_cons_self y ys)⟩
      obtain ⟨iv, hiv, _⟩ := (hU y.start).mpr hy
      simp [memU] at hiv
  | cons x xs ih =>
    intro l2 hwf1 hwf2 hp1 hp2 hU
    cases l2 with
    | nil =>
      exfalso
      have hx : memU (x :: xs) x.start :=
        ⟨x, List.mem_cons_self x xs, le_refl _, hwf1 x (List.mem_cons_self x xs)⟩
      obtain ⟨iv, hiv, _⟩ := (hU x.start).mp hx
      simp [memU] at hiv
    | cons y ys =>
      obtain ⟨hx1, hxs1⟩ := List.pairwise_cons.mp hp1
      obtain ⟨hy2, hys2⟩ := List.pairwise_cons.mp hp2
      have hxwf := hwf1 x (List.mem_cons_self x xs)
      have hywf := hwf2 y (List.mem_cons_self y ys)
      have hstart : x.start = y.start := by
        have hyx : y.start ≤ x.start := by
          obtain ⟨iv, hiv, h1, h2⟩ :=
            (hU x.start).mp ⟨x, List.mem_cons_self x xs, le_refl _, hxwf⟩
          rcases List.mem_cons.mp hiv with rfl | hiv
          · exact h1
          · have hr := hy2 iv hiv
            omega
        have hxy : x.start ≤ y.start := by
          obtain ⟨iv, hiv, h1, h2⟩ :=
            (hU y.start).mpr ⟨y, List.mem_cons_self y ys, le_refl _, hywf⟩
          rcases List.mem_cons.mp hiv with rfl | hiv
          · exact h1
          · have hr := hx1 iv hiv
            omega
        omega
      have hnot1 : ¬ memU (x :: xs) x.stop := by
        rintro ⟨iv, hiv, h1, h2⟩
        rcases List.mem_cons.mp hiv with rfl | hiv
        · omega
        · have hr := hx1 iv hiv
          omega
      have hnot2 : ¬ memU (y :: ys) y.stop := by
        rintro ⟨iv, hiv, h1, h2⟩
        rcases List.mem_cons.mp hiv with rfl | hiv
        · omega
        · have hr := hy2 iv hiv
          omega
      have hstop : x.stop = y.stop := by
        by_contra hne
        rcases lt_or_gt_of_ne hne with h | h
        · exact hnot1 ((hU x.stop).mpr ⟨y, List.mem_cons_self y ys, by omega, h⟩)
        · exact hnot2 ((hU y.stop).mp ⟨x, List.mem_cons_self x xs, by omega, h⟩)
      have hxy : x = y := by
        cases x
        cases y
        simp_all
      subst hxy
      have htails : ∀ t, memU xs t ↔ memU ys t := by
        intro t
        constructor
        · rintro ⟨iv, hiv, h1, h2⟩
          have hgt : x.stop < t := by
            have hr := hx1 iv hiv
            omega
          obtain ⟨jv, hjv, g1, g2⟩ :=
            (hU t).mp ⟨iv, List.mem_cons_of_mem x hiv, h1, h2⟩
          rcases List.mem_cons.mp hjv with rfl | hjv
          · omega
          · exact ⟨jv, hjv, g1, g2⟩
        · rintro ⟨iv, hiv, h1, h2⟩
          have hgt : x.stop < t := by
            have hr := hy2 iv hiv
            omega
          obtain ⟨jv, hjv, g1, g2⟩ :=
            (hU t).mpr ⟨iv, List.mem_cons_of_mem x hiv, h1, h2⟩
          rcases List.mem_cons.mp hjv with rfl | hjv
          · omega
          · exact ⟨jv, hjv, g1, g2⟩
      exact congrArg (List.cons x)
        (ih ys (fun iv h => hwf1 iv (List.mem_cons_of_mem x h))
          (fun iv h => hwf2 iv (List.mem_cons_of_mem x h)) hxs1 hys2 htails)

/-- Two members of a `Pairwise` list are equal or related one way or the
other. -/
lemma pairwise_rel_of_mem {R : Interval → Interval → Prop} :
    ∀ {l : List Interval}, l.Pairwise R →
      ∀ {a b : Interval}, a ∈ l → b ∈ l → a = b ∨ R a b ∨ R b a := by
  intro l
  induction l with
  | nil =>
    intro _ a b ha _
    exact absurd ha (List.not_mem_nil a)
  | cons x xs ih =>
    intro hp a b ha hb
    obtain ⟨hhead, htail⟩ := List.pairwise_cons.mp hp
    rcases List.mem_cons.mp ha with ha1 | ha1
    · rcases List.mem_cons.mp hb with hb1 | hb1
      · exact Or.inl (ha1.trans hb1.symm)
      · exact Or.inr (Or.inl (by rw [ha1]; exact hhead b hb1))
    · rcases List.mem_cons.mp hb with hb1 | hb1
      · exact Or.inr (Or.inr (by rw [hb1]; exact hhead a ha1))
      · exact ih htail ha1 hb1

/-- A nonempty, strictly separated cover of a set of instants consists of
maximal intervals: no interval can be extended one instant to the left or
to the right while staying inside the set. -/
lemma maximal_of_cover {out : List Interval} {S : Int → Prop}
    (hcov : ∀ t, memU out t ↔ S t)
    (hwf : ∀ iv ∈ out, iv.start < iv.stop)
    (hsep : out.Pairwise (fun a b => a.stop < b.start)) :
    ∀ iv ∈ out, ¬ S (iv.start - 1) ∧ ¬ S iv.stop := by
  intro iv hiv
  constructor
  · intro hS
    obtain ⟨jv, hjv, h1, h2⟩ := (hcov _).mpr hS
    rcases pairwise_rel_of_mem hsep hiv hjv with rfl | h | h
    · omega
    · have hw := hwf iv hiv
      omega
    · omega
  · intro hS
    obtain ⟨jv, hjv, h1, h2⟩ := (hcov _).mpr hS
    rcases pairwise_rel_of_mem hsep hiv hjv with rfl | h | h
    · omega
    · omega
    · have hw := hwf iv hiv
      omega

/-- Every returned free slot is nonempty and inside the working-hours
window (no hypothesis on the input is needed for this much). -/
lemma findFreeSlots_mem_window (slots : List FreeBusySlot) (dayStart ws we : Int) :
    ∀ iv ∈ findFreeSlots slots dayStart ws we,
      atHour dayStart ws ≤ iv.start ∧ iv.start < iv.stop ∧ iv.stop ≤ atHour dayStart we := by
  unfold findFreeSlots
  rw [freeSweep_eq_sweepGaps]
  refine sweepGaps_mem _ _ _ _ le_rfl ?_
  intro b hb
  have hp := (List.mem_filter.mp hb).2
  simp only [Bool.and_eq_true, decide_eq_true_eq] at hp
  exact hp.2

/-- Interval form of the busy slots actually swept by `findFreeSlots`. -/
lemma findFreeSlots_input_wf {slots : List FreeBusySlot} {dayStart ws we : Int}
    (hwf : ∀ s ∈ slots, s.status ≠ "Free" → s.start < s.stop) :
    ∀ b ∈ (sortByStart ((slots.filter (fun s => s.status != "Free")).map
          (fun s : FreeBusySlot => (⟨s.start, s.stop⟩ : Interval)))).filter
        (fun b => decide (b.stop > atHour dayStart ws) && decide (b.start < atHour dayStart we)),
      b.start < b.stop := by
  intro b hb
  have hbX := sortByStart_mem.mp (List.mem_filter.mp hb).1
  obtain ⟨s, hsF, rfl⟩ := List.mem_map.mp hbX
  have hm := List.mem_filter.mp hsF
  exact hwf s hm.1 (by simpa [bne_iff_ne] using hm.2)

/-- With well-formed non-`Free` slots, `findFreeSlots` returns strictly
separated intervals. -/
lemma findFreeSlots_pairwise_lt {slots : List FreeBusySlot} {dayStart ws we : Int}
    (hwf : ∀ s ∈ slots, s.status ≠ "Free" → s.start < s.stop) :
    (findFreeSlots slots dayStart ws we).Pairwise (fun a b => a.stop < b.start) := by
  unfold findFreeSlots
  rw [freeSweep_eq_sweepGaps]
  refine sweepGaps_pairwise_lt _ _ _ _ le_rfl ?_ (findFreeSlots_input_wf hwf)
  intro b hb
  have hp := (List.mem_filter.mp hb).2
  simp only [Bool.and_eq_true, decide_eq_true_eq] at hp
  exact hp.2

/-- With non-inverted non-`Free` slots, `findFreeSlots` returns disjoint
intervals in order. -/
lemma findFreeSlots_pairwise_le {slots : List FreeBusySlot} {dayStart ws we : Int}
    (hwf : ∀ s ∈ slots, s.status ≠ "Free" → s.start ≤ s.stop) :
    (findFreeSlots slots dayStart ws we).Pairwise (fun a b => a.stop ≤ b.start) := by
  unfold findFreeSlots
  rw [freeSweep_eq_sweepGaps]
  refine sweepGaps_pairwise_le _ _ _ _ le_rfl ?_ ?_
  · intro b hb
    have hp := (List.mem_filter.mp hb).2
    simp only [Bool.and_eq_true, decide_eq_true_eq] at hp
    exact hp.2
  · intro b hb
    have hbX := sortByStart_mem.mp (List.mem_filter.mp hb).1
    obtain ⟨s, hsF, rfl⟩ := List.mem_map.mp hbX
    have hm := List.mem_filter.mp hsF
    exact hwf s hm.1 (by simpa [bne_iff_ne] using hm.2)

/-- The union of a `Busy`-labelled image is the union of the underlying
intervals. -/
lemma memUB_map_busify (l : List Interval) (t : Int) :
    memUB (l.map (fun iv => (⟨iv.start, iv.stop, "Busy"⟩ : BusyOut))) t ↔ memU l t := by
  constructor
  · rintro ⟨o, ho, h1, h2⟩
    obtain ⟨iv, hiv, rfl⟩ := List.mem_map.mp ho
    exact ⟨iv, hiv, h1, h2⟩
  · rintro ⟨iv, hiv, h1, h2⟩
    exact ⟨_, List.mem_map_of_mem _ hiv, h1, h2⟩

/-- Every returned busy gap is nonempty, inside the working-hours window,
and labelled `Busy` (no hypothesis on the input is needed for this much). -/
lemma findBusyFromFreeSlots_mem_window (items : List ScheduleItem) (dayStart ws we : Int) :
    ∀ o ∈ findBusyFromFreeSlots items dayStart ws we,
      atHour dayStart ws ≤ o.startTime ∧ o.startTime < o.endTime ∧
        o.endTime ≤ atHour dayStart we ∧ o.status = "Busy" := by
  unfold findBusyFromFreeSlots
  rw [gapSweep_eq_sweepGaps]
  intro o ho
  obtain ⟨iv, hiv, rfl⟩ := List.mem_map.mp ho
  have hb := sweepGaps_mem _ _ _ _ le_rfl ?_ iv hiv
  · exact ⟨hb.1, hb.2.1, hb.2.2, rfl⟩
  · intro b hb'
    have hp := (List.mem_filter.mp (sortByStart_mem.mp hb')).2
    simp only [Bool.and_eq_true, decide_eq_true_eq] at hp
    exact hp.2

/-- Interval form of the free slots actually swept by
`findBusyFromFreeSlots`. -/
lemma findBusyFromFreeSlots_input_wf {items : List ScheduleItem} {dayStart ws we : Int}
    (hwf : ∀ i ∈ items, i.status = "Free" → i.start < i.stop) :
    ∀ b ∈ sortByStart (((items.filter (fun i => i.status == "Free")).map
          (fun i : ScheduleItem => (⟨i.start, i.stop⟩ : Interval))).filter
        (fun s => decide (s.stop > atHour dayStart ws) && decide (s.start < atHour dayStart we))),
      b.start < b.stop := by
  intro b hb
  have hbX := (List.mem_filter.mp (sortByStart_mem.mp hb)).1
  obtain ⟨i, hiF, rfl⟩ := List.mem_map.mp hbX
  have hm := List.mem_filter.mp hiF
  exact hwf i hm.1 (by simpa using hm.2)

/-- With well-formed `Free` items, `findBusyFromFreeSlots` returns strictly
separated busy gaps. -/
lemma findBusyFromFreeSlots_pairwise_lt {items : List ScheduleItem} {dayStart ws we : Int}
    (hwf : ∀ i ∈ items, i.status = "Free" → i.start < i.stop) :
    (findBusyFromFreeSlots items dayStart ws we).Pairwise
      (fun a b => a.endTime < b.startTime) := by
  unfold findBusyFromFreeSlots
  rw [gapSweep_eq_sweepGaps]
  refine List.pairwise_map.mpr ?_
  refine sweepGaps_pairwise_lt _ _ _ _ le_rfl ?_ (findBusyFromFreeSlots_input_wf hwf)
  intro b hb
  have hp := (List.mem_filter.mp (sortByStart_mem.mp hb)).2
  simp only [Bool.and_eq_true, decide_eq_true_eq] at hp
  exact hp.2

/-- With non-inverted `Free` items, `findBusyFromFreeSlots` returns
disjoint busy gaps in order. -/
lemma findBusyFromFreeSlots_pairwise_le {items : List ScheduleItem} {dayStart ws we : Int}
    (hwf : ∀ i ∈ items, i.status = "Free" → i.start ≤ i.stop) :
    (findBusyFromFreeSlots items dayStart ws we).Pairwise
      (fun a b => a.endTime ≤ b.startTime) := by
  unfold findBusyFromFreeSlots
  rw [gapSweep_eq_sweepGaps]
  refine List.pairwise_map.mpr ?_
  refine sweepGaps_pairwise_le _ _ _ _ le_rfl ?_ ?_
  · intro b hb
    have hp := (List.mem_filter.mp (sortByStart_mem.mp hb)).2
    simp only [Bool.and_eq_true, decide_eq_true_eq] at hp
    exact hp.2
  · intro b hb
    have hbX := (List.mem_filter.mp (sortByStart_mem.mp hb)).1
    obtain ⟨i, hiF, rfl⟩ := List.mem_map.mp hbX
    have hm := List.mem_filter.mp hiF
    exact hwf i hm.1 (by simpa using hm.2)

/-- A sweep over a window that is empty (`wE ≤ wS`) emits nothing, as long
as every input interval starts before `wE` (which the in-window filters
guarantee). -/
lemma sweepGaps_empty (wS wE : Int) :
    ∀ (l : List Interval) (current : Int), wE ≤ wS → wS ≤ current →
      (∀ b ∈ l, b.start < wE) → sweepGaps wS wE current l = [] := by
  intro l
  induction l with
  | nil =>
    intro current hdeg hcur _
    simp only [sweepGaps]
    rw [if_neg (by omega)]
  | cons f rest ih =>
    intro current hdeg hcur hlt
    have hf : f.start < wE := hlt f (List.mem_cons_self f rest)
    simp only [sweepGaps]
    rw [if_neg (by omega)]
    exact ih _ hdeg (by omega) (fun b hb => hlt b (List.mem_cons_of_mem f hb))

/-- Comparison definition for the refinement claim, following the spec's
words (§4.1): intersect the interval with the window and return `none` when
the intersection is empty. -/
def specClamp (iv : Interval) (wS wE : Int) : Option Interval :=
  if max iv.start wS < min iv.stop wE then some ⟨max iv.start wS, min iv.stop wE⟩ else none

/-- Comparison definition for the refinement claim, following the spec's
words (§4.3 steps 3-4): sweep a cursor over already-clamped free intervals,
emit `[cursor, interval.start)` when the interval starts after the cursor,
advance the cursor to `max(cursor, interval.end)`, and emit the trailing
gap. -/
def specCursorSweep (wE : Int) : Int → List Interval → List Interval
  | current, [] =>
    if current < wE then [⟨current, wE⟩] else []
  | current, f :: rest =>
    if f.start > current then
      ⟨current, f.start⟩ :: specCursorSweep wE (max current f.stop) rest
    else
      specCursorSweep wE (max current f.stop) rest

/-- Comparison definition for the refinement claim, following the spec's
words (§4.3): keep the `Free` items, clamp each to the work window
discarding empties, sort by start, sweep the cursor, and label every
emitted gap `Busy`. -/
def specGapInverter (freeItems : List ScheduleItem) (dayStart wsH weH : Int) :
    List BusyOut :=
  let wS := atHour dayStart wsH
  let wE := atHour dayStart weH
  let clamped :=
    ((freeItems.filter (fun i => i.status == "Free")).map
        (fun i : ScheduleItem => (⟨i.start, i.stop⟩ : Interval))).filterMap
      (fun iv => specClamp iv wS wE)
  (specCursorSweep wE wS (sortByStart clamped)).map
    (fun iv => ⟨iv.start, iv.stop, "Busy"⟩)

/-- On input already inside the window, the spec's sweep and the code's
sweep coincide (the code's re-clamping is the identity there). -/
lemma specCursorSweep_eq_sweepGaps (wS wE : Int) :
    ∀ (l : List Interval) (current : Int), (∀ b ∈ l, wS ≤ b.start ∧ b.stop ≤ wE) →
      specCursorSweep wE current l = sweepGaps wS wE current l := by
  intro l
  induction l with
  | nil => intro current _; rfl
  | cons f rest ih =>
    intro current hin
    have hf := hin f (List.mem_cons_self f rest)
    have hrest : ∀ b ∈ rest, wS ≤ b.start ∧ b.stop ≤ wE :=
      fun b hb => hin b (List.mem_cons_of_mem f hb)
    simp only [specCursorSweep, sweepGaps, max_eq_left hf.1, min_eq_left hf.2]
    split <;> rw [ih _ hrest]

/-- Every interval produced by the spec's clamp is nonempty and inside the
window. -/
lemma specClamp_mem_props {wS wE : Int} {iv b : Interval}
    (h : specClamp iv wS wE = some b) :
    wS ≤ b.start ∧ b.start < b.stop ∧ b.stop ≤ wE := by
  unfold specClamp at h
  split at h
  · rename_i hlt
    obtain rfl := (Option.some.injEq _ _).mp h.symm
    refine ⟨le_max_right _ _, hlt, min_le_right _ _⟩
  · simp at h

/-- Coverage of the spec-worded Gap Inverter: same characterization as
`findBusyFromFreeSlots_cover`. -/
lemma specGapInverter_cover (items : List ScheduleItem) (dayStart wsH weH t : Int) :
    memUB (specGapInverter items dayStart wsH weH) t ↔
      (atHour dayStart wsH ≤ t ∧ t < atHour dayStart weH ∧ ¬ freeCovers items t) := by
  unfold specGapInverter
  set wS := atHour dayStart wsH with hwS
  set wE := atHour dayStart weH with hwE
  set clamped := ((items.filter (fun i => i.status == "Free")).map
      (fun i : ScheduleItem => (⟨i.start, i.stop⟩ : Interval))).filterMap
    (fun iv => specClamp iv wS wE) with hclamped
  have hprops : ∀ b ∈ sortByStart clamped, wS ≤ b.start ∧ b.start < b.stop ∧ b.stop ≤ wE := by
    intro b hb
    obtain ⟨iv, _, hcl⟩ := List.mem_filterMap.mp (sortByStart_mem.mp hb)
    exact specClamp_mem_props hcl
  rw [memUB_map_busify]
  rw [specCursorSweep_eq_sweepGaps wS wE _ wS
    (fun b hb => ⟨(hprops b hb).1, (hprops b hb).2.2⟩)]
  unfold memU
  rw [sweepGaps_cover wS wE _ wS le_rfl
    (fun b hb => lt_of_lt_of_le (hprops b hb).2.1 (hprops b hb).2.2)
    (sortByStart_sorted _) t]
  constructor
  · rintro ⟨h1, h2, h3⟩
    refine ⟨h1, h2, ?_⟩
    rintro ⟨i, hi, hif, hit, hti⟩
    have hx : (⟨i.start, i.stop⟩ : Interval) ∈
        (items.filter (fun i => i.status == "Free")).map
          (fun i : ScheduleItem => (⟨i.start, i.stop⟩ : Interval)) :=
      List.mem_map.mpr ⟨i, List.mem_filter.mpr ⟨hi, by simpa using hif⟩, rfl⟩
    have hcl : specClamp ⟨i.start, i.stop⟩ wS wE =
        some ⟨max i.start wS, min i.stop wE⟩ := by
      unfold specClamp
      rw [if_pos (by dsimp; omega)]
    have hb : (⟨max i.start wS, min i.stop wE⟩ : Interval) ∈ sortByStart clamped :=
      sortByStart_mem.mpr (List.mem_filterMap.mpr ⟨_, hx, hcl⟩)
    refine h3 _ hb ⟨?_, ?_⟩ <;> dsimp <;> omega
  · rintro ⟨h1, h2, hn⟩
    refine ⟨h1, h2, ?_⟩
    intro b hb hcov
    obtain ⟨iv, hivX, hcl⟩ := List.mem_filterMap.mp (sortByStart_mem.mp hb)
    obtain ⟨i, hiF, rfl⟩ := List.mem_map.mp hivX
    have hm := List.mem_filter.mp hiF
    unfold specClamp at hcl
    split at hcl
    · obtain rfl := (Option.some.injEq _ _).mp hcl.symm
      dsimp at hcov
      exact hn ⟨i, hm.1, by simpa using hm.2, by omega, by omega⟩
    · simp at hcl

/-- The code's Gap Inverter equals the spec-worded one on well-formed
`Free` items: proved by showing both outputs are nonempty, strictly
separated interval sequences with the same union, which determines them
uniquely. -/
theorem findBusyFromFreeSlots_eq_spec (items : List ScheduleItem) (dayStart wsH weH : Int)
    (hwf : ∀ i ∈ items, i.status = "Free" → i.start < i.stop) :
    findBusyFromFreeSlots items dayStart wsH weH = specGapInverter items dayStart wsH weH := by
  set wS := atHour dayStart wsH with hwS
  set wE := atHour dayStart weH with hwE
  set Lcode := sortByStart (((items.filter (fun i => i.status == "Free")).map
      (fun i : ScheduleItem => (⟨i.start, i.stop⟩ : Interval))).filter
    (fun s => decide (s.stop > wS) && decide (s.start < wE))) with hLcode
  set clamped := ((items.filter (fun i => i.status == "Free")).map
      (fun i : ScheduleItem => (⟨i.start, i.stop⟩ : Interval))).filterMap
    (fun iv => specClamp iv wS wE) with hclamped
  set Lspec := sortByStart clamped with hLspec
  have hpropsSpec : ∀ b ∈ Lspec, wS ≤ b.start ∧ b.start < b.stop ∧ b.stop ≤ wE := by
    intro b hb
    obtain ⟨iv, _, hcl⟩ := List.mem_filterMap.mp (sortByStart_mem.mp hb)
    exact specClamp_mem_props hcl
  have hltCode : ∀ b ∈ Lcode, b.start < wE := by
    intro b hb
    have hp := (List.mem_filter.mp (sortByStart_mem.mp hb)).2
    simp only [Bool.and_eq_true, decide_eq_true_eq] at hp
    exact hp.2
  have hltSpec : ∀ b ∈ Lspec, b.start < wE :=
    fun b hb => lt_of_lt_of_le (hpropsSpec b hb).2.1 (hpropsSpec b hb).2.2
  have hcodeEq : findBusyFromFreeSlots items dayStart wsH weH =
      (sweepGaps wS wE wS Lcode).map (fun iv => (⟨iv.start, iv.stop, "Busy"⟩ : BusyOut)) := by
    have h0 : findBusyFromFreeSlots items dayStart wsH weH = gapSweep wS wE wS Lcode := rfl
    rw [h0, gapSweep_eq_sweepGaps]
  have hspecEq : specGapInverter items dayStart wsH weH =
      (sweepGaps wS wE wS Lspec).map (fun iv => (⟨iv.start, iv.stop, "Busy"⟩ : BusyOut)) := by
    have h0 : specGapInverter items dayStart wsH weH =
        (specCursorSweep wE wS Lspec).map
          (fun iv => (⟨iv.start, iv.stop, "Busy"⟩ : BusyOut)) := rfl
    rw [h0, specCursorSweep_eq_sweepGaps wS wE Lspec wS
      (fun b hb => ⟨(hpropsSpec b hb).1, (hpropsSpec b hb).2.2⟩)]
  have hintervals : sweepGaps wS wE wS Lcode = sweepGaps wS wE wS Lspec := by
    refine separated_decomp_unique _ _
      (fun iv hiv => (sweepGaps_mem wS wE Lcode wS le_rfl hltCode iv hiv).2.1)
      (fun iv hiv => (sweepGaps_mem wS wE Lspec wS le_rfl hltSpec iv hiv).2.1)
      (sweepGaps_pairwise_lt wS wE Lcode wS le_rfl hltCode
        (findBusyFromFreeSlots_input_wf hwf))
      (sweepGaps_pairwise_lt wS wE Lspec wS le_rfl hltSpec
        (fun b hb => (hpropsSpec b hb).2.1)) ?_
    intro t
    have h1 : memU (sweepGaps wS wE wS Lcode) t ↔
        memUB (findBusyFromFreeSlots items dayStart wsH weH) t := by
      rw [hcodeEq, memUB_map_busify]
    have h2 : memU (sweepGaps wS wE wS Lspec) t ↔
        memUB (specGapInverter items dayStart wsH weH) t := by
      rw [hspecEq, memUB_map_busify]
    rw [h1, h2, findBusyFromFreeSlots_cover, specGapInverter_cover]
  rw [hcodeEq, hspecEq, hintervals]

/-- Proof-side form of `pavGo` that carries the bucket-start instant
directly instead of the bucket index (`W` is the bucket width in
milliseconds). -/
def pavGoT (W : Int) : Int → Option AvailBlock → List Char → List AvailBlock
  | _, none, [] => []
  | _, some c, [] => [c]
  | time, cur, ch :: rest =>
    if statusMapLookup ch = "Free" then
      match cur with
      | some c => c :: pavGoT W (time + W) none rest
      | none => pavGoT W (time + W) none rest
    else
      match cur with
      | none => pavGoT W (time + W) (some ⟨time, time + W, statusMapLookup ch⟩) rest
      | some c =>
        if c.status ≠ statusMapLookup ch then
          c :: pavGoT W (time + W) (some ⟨time, time + W, statusMapLookup ch⟩) rest
        else
          pavGoT W (time + W) (some ⟨c.start, time + W, c.status⟩) rest

lemma pavGo_eq_pavGoT (s w : Int) :
    ∀ (l : List Char) (i : Nat) (cur : Option AvailBlock),
      pavGo s w i cur l = pavGoT (w * 60000) (s + (i : Int) * w * 60000) cur l := by
  intro l
  induction l with
  | nil =>
    intro i cur
    cases cur <;> rfl
  | cons ch rest ih =>
    intro i cur
    have hstep : s + ((i + 1 : Nat) : Int) * w * 60000 =
        s + (i : Int) * w * 60000 + w * 60000 := by
      push_cast
      ring
    cases cur with
    | none =>
      by_cases hch : statusMapLookup ch = "Free"
      · simp only [pavGo, pavGoT, hch, if_pos]
        rw [ih (i + 1) none, hstep]
      · simp [pavGo, pavGoT, hch]
        rw [ih (i + 1) (some _), hstep]
    | some c =>
      by_cases hch : statusMapLookup ch = "Free"
      · simp [pavGo, pavGoT, hch]
        rw [ih (i + 1) none, hstep]
      · by_cases hdf : c.status ≠ statusMapLookup ch
        · simp [pavGo, pavGoT, hch, hdf]
          rw [ih (i + 1) (some _), hstep]
        · push_neg at hdf
          simp [pavGo, pavGoT, hch, hdf]
          rw [ih (i + 1) (some _), hstep]

/-- Structure of the decoder loop: with a positive bucket width and a
well-formed open run, the emitted runs are non-`Free`, nonempty, adjacent
ones are disjoint and two touching ones never share a status (the loop
would have merged them), and every run starts no earlier than the open run
(or the current bucket). -/
lemma pavGoT_props (W : Int) (hW : 0 < W) :
    ∀ (l : List Char) (time : Int) (cur : Option AvailBlock),
      (∀ c, cur = some c → c.status ≠ "Free" ∧ c.start < c.stop ∧ c.stop = time) →
      List.Chain' (fun a b => a.stop ≤ b.start ∧ (a.status = b.status → a.stop < b.start))
          (pavGoT W time cur l) ∧
        (∀ r ∈ pavGoT W time cur l, r.status ≠ "Free" ∧ r.start < r.stop) ∧
        (∀ r ∈ pavGoT W time cur l,
          (∀ c, cur = some c →
            (r.start = c.start ∧ r.status = c.status) ∨
              (c.stop ≤ r.start ∧ (r.status = c.status → c.stop < r.start))) ∧
          (cur = none → time ≤ r.start)) := by
  intro l
  induction l with
  | nil =>
    intro time cur hinv
    cases cur with
    | none =>
      simp only [pavGoT]
      exact ⟨List.chain'_nil, fun r hr => absurd hr (List.not_mem_nil r),
        fun r hr => absurd hr (List.not_mem_nil r)⟩
    | some c =>
      obtain ⟨h1, h2, _⟩ := hinv c rfl
      simp only [pavGoT]
      refine ⟨List.chain'_singleton c, ?_, ?_⟩
      · intro r hr
        rw [List.mem_singleton] at hr
        subst hr
        exact ⟨h1, h2⟩
      · intro r hr
        rw [List.mem_singleton] at hr
        subst hr
        refine ⟨fun c0 hc0 => ?_, fun hno => nomatch hno⟩
        obtain rfl := Option.some.inj hc0
        exact Or.inl ⟨rfl, rfl⟩
  | cons ch rest ih =>
    intro time cur hinv
    by_cases hch : statusMapLookup ch = "Free"
    · cases cur with
      | none =>
        have heq : pavGoT W time none (ch :: rest) = pavGoT W (time + W) none rest := by
          simp [pavGoT, hch]
        rw [heq]
        obtain ⟨hC, hS, hL⟩ := ih (time + W) none (fun c0 hc0 => nomatch hc0)
        refine ⟨hC, hS, ?_⟩
        intro r hr
        refine ⟨(fun c0 hc0 => nomatch hc0), fun _ => ?_⟩
        have hge := (hL r hr).2 rfl
        omega
      | some c =>
        obtain ⟨hc1, hc2, hc3⟩ := hinv c rfl
        have heq : pavGoT W time (some c) (ch :: rest) =
            c :: pavGoT W (time + W) none rest := by
          simp [pavGoT, hch]
        rw [heq]
        obtain ⟨hC, hS, hL⟩ := ih (time + W) none (fun c0 hc0 => nomatch hc0)
        refine ⟨?_, ?_, ?_⟩
        · refine List.chain'_cons'.mpr ⟨?_, hC⟩
          intro y hy
          have hge := (hL y (List.mem_of_mem_head? hy)).2 rfl
          exact ⟨by omega, fun _ => by omega⟩
        · intro r hr
          rcases List.mem_cons.mp hr with hr1 | hr1
          · rw [hr1]; exact ⟨hc1, hc2⟩
          · exact hS r hr1
        · intro r hr
          rcases List.mem_cons.mp hr with hr1 | hr1
          · refine ⟨fun c0 hc0 => ?_, fun hno => nomatch hno⟩
            obtain rfl := Option.some.inj hc0
            exact Or.inl ⟨by rw [hr1], by rw [hr1]⟩
          · have hge := (hL r hr1).2 rfl
            refine ⟨fun c0 hc0 => ?_, fun hno => nomatch hno⟩
            obtain rfl := Option.some.inj hc0
            exact Or.inr ⟨by omega, fun _ => by omega⟩
    · cases cur with
      | none =>
        have heq : pavGoT W time none (ch :: rest) =
            pavGoT W (time + W) (some ⟨time, time + W, statusMapLookup ch⟩) rest := by
          simp [pavGoT, hch]
        rw [heq]
        obtain ⟨hC, hS, hL⟩ := ih (time + W) (some ⟨time, time + W, statusMapLookup ch⟩)
          (by
            intro c0 hc0
            obtain rfl := Option.some.inj hc0
            exact ⟨hch, by dsimp; omega, rfl⟩)
        refine ⟨hC, hS, ?_⟩
        intro r hr
        refine ⟨(fun c0 hc0 => nomatch hc0), fun _ => ?_⟩
        rcases (hL r hr).1 _ rfl with ⟨heq1, _⟩ | ⟨hge, _⟩
        · dsimp at heq1
          omega
        · dsimp at hge
          omega
      | some c =>
        obtain ⟨hc1, hc2, hc3⟩ := hinv c rfl
        by_cases hdf : c.status ≠ statusMapLookup ch
        · have heq : pavGoT W time (some c) (ch :: rest) =
              c :: pavGoT W (time + W) (some ⟨time, time + W, statusMapLookup ch⟩) rest := by
            simp [pavGoT, hch, hdf]
          rw [heq]
          obtain ⟨hC, hS, hL⟩ := ih (time + W) (some ⟨time, time + W, statusMapLookup ch⟩)
            (by
              intro c0 hc0
              obtain rfl := Option.some.inj hc0
              exact ⟨hch, by dsimp; omega, rfl⟩)
          refine ⟨?_, ?_, ?_⟩
          · refine List.chain'_cons'.mpr ⟨?_, hC⟩
            intro y hy
            rcases (hL y (List.mem_of_mem_head? hy)).1 _ rfl with ⟨heq1, heq2⟩ | ⟨hge, _⟩
            · dsimp at heq1 heq2
              exact ⟨by omega, fun hstat => absurd (hstat.trans heq2) hdf⟩
            · dsimp at hge
              exact ⟨by omega, fun _ => by omega⟩
          · intro r hr
            rcases List.mem_cons.mp hr with hr1 | hr1
            · rw [hr1]; exact ⟨hc1, hc2⟩
            · exact hS r hr1
          · intro r hr
            rcases List.mem_cons.mp hr with hr1 | hr1
            · refine ⟨fun c0 hc0 => ?_, fun hno => nomatch hno⟩
              obtain rfl := Option.some.inj hc0
              exact Or.inl ⟨by rw [hr1], by rw [hr1]⟩
            · refine ⟨fun c0 hc0 => ?_, fun hno => nomatch hno⟩
              obtain rfl := Option.some.inj hc0
              rcases (hL r hr1).1 _ rfl with ⟨heq1, heq2⟩ | ⟨hge, _⟩
              · dsimp at heq1 heq2
                exact Or.inr ⟨by omega,
                  fun hstat => absurd (hstat.symm.trans heq2) hdf⟩
              · dsimp at hge
                exact Or.inr ⟨by omega, fun _ => by omega⟩
        · push_neg at hdf
          have heq : pavGoT W time (some c) (ch :: rest) =
              pavGoT W (time + W) (some ⟨c.start, time + W, c.status⟩) rest := by
            simp [pavGoT, hch, hdf]
          rw [heq]
          obtain ⟨hC, hS, hL⟩ := ih (time + W) (some ⟨c.start, time + W, c.status⟩)
            (by
              intro c0 hc0
              obtain rfl := Option.some.inj hc0
              exact ⟨hc1, by dsimp; omega, rfl⟩)
          refine ⟨hC, hS, ?_⟩
          intro r hr
          refine ⟨fun c0 hc0 => ?_, fun hno => nomatch hno⟩
          obtain rfl := Option.some.inj hc0
          rcases (hL r hr).1 _ rfl with ⟨heq1, heq2⟩ | ⟨hge, _⟩
          · dsimp at heq1 heq2
            exact Or.inl ⟨heq1, heq2⟩
          · dsimp at hge
            exact Or.inr ⟨by omega, fun _ => by omega⟩

/-- A run of `Free` buckets followed by one non-`Free` bucket decodes to a
single run of exactly one bucket's width. -/
lemma pavGoT_all_free (W : Int) :
    ∀ (l : List Char) (time : Int) (c : Char),
      (∀ ch ∈ l, statusMapLookup ch = "Free") → statusMapLookup c ≠ "Free" →
      pavGoT W time none (l ++ [c]) =
        [⟨time + (l.length : Int) * W, time + (l.length : Int) * W + W,
          statusMapLookup c⟩] := by
  intro l
  induction l with
  | nil =>
    intro time c _ hc
    simp [pavGoT, hc]
  | cons ch rest ihl =>
    intro time c hfree hc
    have hch : statusMapLookup ch = "Free" := hfree ch (List.mem_cons_self ch rest)
    have hrec := ihl (time + W) c (fun x hx => hfree x (List.mem_cons_of_mem ch hx)) hc
    have heq : pavGoT W time none (ch :: (rest ++ [c])) =
        pavGoT W (time + W) none (rest ++ [c]) := by
      simp [pavGoT, hch]
    rw [List.cons_append, heq, hrec]
    have harr : time + W + (rest.length : Int) * W =
        time + ((ch :: rest).length : Int) * W := by
      simp only [List.length_cons]
      push_cast
      ring
    rw [harr]

lemma parseAvailabilityView_chain (view : String) (startDate w : Int) (hw : 0 < w) :
    List.Chain' (fun a b => a.stop ≤ b.start ∧ (a.status = b.status → a.stop < b.start))
        (parseAvailabilityView view startDate w) ∧
      ∀ r ∈ parseAvailabilityView view startDate w, r.status ≠ "Free" ∧ r.start < r.stop := by
  unfold parseAvailabilityView
  rw [pavGo_eq_pavGoT]
  have hW : 0 < w * 60000 := by omega
  obtain ⟨hC, hS, _⟩ := pavGoT_props (w * 60000) hW view.toList
    (startDate + ((0 : Nat) : Int) * w * 60000) none (fun c0 hc0 => nomatch hc0)
  exact ⟨hC, hS⟩

lemma parseAvailabilityView_trailing (l : List Char) (c : Char) (startDate w : Int)
    (hfree : ∀ ch ∈ l, statusMapLookup ch = "Free") (hc : statusMapLookup c ≠ "Free") :
    parseAvailabilityView (String.mk (l ++ [c])) startDate w =
      [⟨startDate + (l.length : Int) * (w * 60000),
        startDate + (l.length : Int) * (w * 60000) + w * 60000, statusMapLookup c⟩] := by
  unfold parseAvailabilityView
  have h0 : (String.mk (l ++ [c])).toList = l ++ [c] := rfl
  rw [h0, pavGo_eq_pavGoT,
    show startDate + ((0 : Nat) : Int) * w * 60000 = startDate by push_cast; ring,
    pavGoT_all_free (w * 60000) l startDate c hfree hc]

/-- Adjacent disjointness plus nonemptiness yields global pairwise
disjointness for decoder output. -/
lemma availBlocks_pairwise_of_chain' :
    ∀ {l : List AvailBlock}, l.Chain' (fun a b => a.stop ≤ b.start) →
      (∀ r ∈ l, r.start < r.stop) → l.Pairwise (fun a b => a.stop ≤ b.start) := by
  intro l
  induction l with
  | nil =>
    intro _ _
    exact List.Pairwise.nil
  | cons x xs ih =>
    intro hc hne
    have hc' := List.chain'_cons'.mp hc
    refine List.Pairwise.cons ?_ (ih hc'.2 (fun r hr => hne r (List.mem_cons_of_mem x hr)))
    intro b hb
    cases xs with
    | nil => exact absurd hb (List.not_mem_nil b)
    | cons y ys =>
      have hxy : x.stop ≤ y.start := hc'.1 y rfl
      have hpw := ih hc'.2 (fun r hr => hne r (List.mem_cons_of_mem x hr))
      rcases List.mem_cons.mp hb with hb1 | hb1
      · rw [hb1]
        exact hxy
      · have hyb := (List.pairwise_cons.mp hpw).1 b hb1
        have hyne := hne y (List.mem_cons_of_mem x (List.mem_cons_self y ys))
        omega

/-- C1: for every list of busy-labelled input slots (well-formed per the
data model, `start < end`) and work window `[day@workStart, day@workEnd)`,
`findFreeSlots` returns exactly the maximal, non-overlapping,
start-ascending intervals of window time not covered by any non-`Free`
slot: its output covers precisely the uncovered window instants, consists
of nonempty strictly separated intervals, no interval can be extended by
one instant on either side, and on the spec's example (busy
`[10:00,10:30)` and tentative `[13:00,14:00)` in `09:00-17:00`) it returns
exactly `[09:00,10:00)`, `[10:30,13:00)`, `[14:00,17:00)`. -/
theorem c1_free_slot_extractor (slots : List FreeBusySlot) (dayStart ws we : Int)
    (hwf : ∀ s ∈ slots, s.status ≠ "Free" → s.start < s.stop) :
    (∀ t, memU (findFreeSlots slots dayStart ws we) t ↔
      (atHour dayStart ws ≤ t ∧ t < atHour dayStart we ∧ ¬ busyCovers slots t)) ∧
    (∀ iv ∈ findFreeSlots slots dayStart ws we, iv.start < iv.stop) ∧
    (findFreeSlots slots dayStart ws we).Pairwise (fun a b => a.stop < b.start) ∧
    (∀ iv ∈ findFreeSlots slots dayStart ws we,
      ¬(atHour dayStart ws ≤ iv.start - 1 ∧ iv.start - 1 < atHour dayStart we ∧
          ¬ busyCovers slots (iv.start - 1)) ∧
      ¬(atHour dayStart ws ≤ iv.stop ∧ iv.stop < atHour dayStart we ∧
          ¬ busyCovers slots iv.stop)) ∧
    findFreeSlots [⟨"Busy", 36000000, 37800000⟩, ⟨"Tentative", 46800000, 50400000⟩] 0 9 17 =
      [⟨32400000, 36000000⟩, ⟨37800000, 46800000⟩, ⟨50400000, 61200000⟩] :=
  ⟨findFreeSlots_cover slots dayStart ws we,
    fun iv hiv => (findFreeSlots_mem_window slots dayStart ws we iv hiv).2.1,
    findFreeSlots_pairwise_lt hwf,
    maximal_of_cover (findFreeSlots_cover slots dayStart ws we)
      (fun iv hiv => (findFreeSlots_mem_window slots dayStart ws we iv hiv).2.1)
      (findFreeSlots_pairwise_lt hwf),
    by decide⟩

/-- C2: for every list of well-formed `Free`-labelled schedule items and
work window, `findBusyFromFreeSlots` is exactly the spec's Gap Inverter —
clamp each free interval to the window, sort by start, sweep a cursor from
the window start emitting `[cursor, start)` gaps with status `Busy` and
advancing the cursor to `max(cursor, end)`, then emit the trailing gap —
and on the spec's example (free `[09:00,12:00)` over `09:00-17:00`) it
returns exactly the one busy gap `[12:00,17:00)`. -/
theorem c2_gap_inverter (items : List ScheduleItem) (dayStart wsH weH : Int)
    (hwf : ∀ i ∈ items, i.status = "Free" → i.start < i.stop) :
    findBusyFromFreeSlots items dayStart wsH weH = specGapInverter items dayStart wsH weH ∧
    (∀ o ∈ findBusyFromFreeSlots items dayStart wsH weH, o.status = "Busy") ∧
    findBusyFromFreeSlots [⟨"Free", 32400000, 43200000⟩] 0 9 17 =
      [⟨43200000, 61200000, "Busy"⟩] :=
  ⟨findBusyFromFreeSlots_eq_spec items dayStart wsH weH hwf,
    fun o ho => (findBusyFromFreeSlots_mem_window items dayStart wsH weH o ho).2.2.2,
    by decide⟩

/-- C3: `parseAvailabilityView` coalesces adjacent same-status non-`Free`
buckets: with a positive bucket width, adjacent runs are disjoint and two
touching runs never share a status, no run is labelled `Free` (a `Free`
bucket never starts a run and closes any open one) and every run is
nonempty; a run of `Free` buckets followed by a single trailing non-`Free`
bucket yields one run of exactly that bucket's width (the open run is
flushed at end of input); the empty string yields the empty result; and
`"0022110"` with 30-minute buckets from instant 0 yields exactly
`Busy [01:00,02:00)` and `Tentative [02:00,03:00)`. -/
theorem c3_availability_decoder :
    (∀ (view : String) (startDate w : Int), 0 < w →
      List.Chain' (fun a b => a.stop ≤ b.start ∧ (a.status = b.status → a.stop < b.start))
          (parseAvailabilityView view startDate w) ∧
        ∀ r ∈ parseAvailabilityView view startDate w, r.status ≠ "Free" ∧ r.start < r.stop) ∧
    (∀ (l : List Char) (c : Char) (startDate w : Int),
      (∀ ch ∈ l, statusMapLookup ch = "Free") → statusMapLookup c ≠ "Free" →
      parseAvailabilityView (String.mk (l ++ [c])) startDate w =
        [⟨startDate + (l.length : Int) * (w * 60000),
          startDate + (l.length : Int) * (w * 60000) + w * 60000, statusMapLookup c⟩]) ∧
    (∀ startDate w : Int, parseAvailabilityView "" startDate w = []) ∧
    parseAvailabilityView "0022110" 0 30 =
      [⟨3600000, 7200000, "Busy"⟩, ⟨7200000, 10800000, "Tentative"⟩] :=
  ⟨parseAvailabilityView_chain, parseAvailabilityView_trailing,
    fun _ _ => rfl, by decide⟩

/-- C4: when a dataset is presented both as well-formed busy-labelled slots
(for `findFreeSlots`) and as the complementary well-formed free-labelled
items (for `findBusyFromFreeSlots`) over the same window, the two outputs
exactly tile the window: every window instant lies in exactly one of the
two output families, no output instant lies outside the window, and each
family is internally non-overlapping. -/
theorem c4_complementary_tiling (busySlots : List FreeBusySlot) (items : List ScheduleItem)
    (dayStart ws we : Int)
    (hwfB : ∀ s ∈ busySlots, s.status ≠ "Free" → s.start < s.stop)
    (hwfF : ∀ i ∈ items, i.status = "Free" → i.start < i.stop)
    (hcomp : ∀ t, atHour dayStart ws ≤ t → t < atHour dayStart we →
      (busyCovers busySlots t ↔ ¬ freeCovers items t)) :
    (∀ t, atHour dayStart ws ≤ t → t < atHour dayStart we →
      (memU (findFreeSlots busySlots dayStart ws we) t ↔
        ¬ memUB (findBusyFromFreeSlots items dayStart ws we) t)) ∧
    (∀ t, memU (findFreeSlots busySlots dayStart ws we) t →
      atHour dayStart ws ≤ t ∧ t < atHour dayStart we) ∧
    (∀ t, memUB (findBusyFromFreeSlots items dayStart ws we) t →
      atHour dayStart ws ≤ t ∧ t < atHour dayStart we) ∧
    (findFreeSlots busySlots dayStart ws we).Pairwise (fun a b => a.stop < b.start) ∧
    (findBusyFromFreeSlots items dayStart ws we).Pairwise
      (fun a b => a.endTime < b.startTime) := by
  refine ⟨?_, ?_, ?_, findFreeSlots_pairwise_lt hwfB, findBusyFromFreeSlots_pairwise_lt hwfF⟩
  · intro t h1 h2
    rw [findFreeSlots_cover, findBusyFromFreeSlots_cover]
    have hc := hcomp t h1 h2
    tauto
  · intro t ht
    have h := (findFreeSlots_cover busySlots dayStart ws we t).mp ht
    exact ⟨h.1, h.2.1⟩
  · intro t ht
    have h := (findBusyFromFreeSlots_cover items dayStart ws we t).mp ht
    exact ⟨h.1, h.2.1⟩

/-- C5: for busy slots that are all busy-labelled, disjoint, sorted by
start, and fully contained in the window, feeding the free slots computed
by `findFreeSlots` back through `findBusyFromFreeSlots` (as `Free` items)
reproduces exactly the original busy coverage. -/
theorem c5_round_trip (slots : List FreeBusySlot) (dayStart ws we : Int)
    (hall : ∀ s ∈ slots, s.status ≠ "Free")
    (_hsorted : slots.Pairwise (fun a b => a.stop ≤ b.start))
    (hcont : ∀ s ∈ slots, atHour dayStart ws ≤ s.start ∧ s.stop ≤ atHour dayStart we) :
    ∀ t,
      memUB (findBusyFromFreeSlots
          ((findFreeSlots slots dayStart ws we).map
            (fun iv => (⟨"Free", iv.start, iv.stop⟩ : ScheduleItem)))
          dayStart ws we) t ↔
        ∃ s ∈ slots, s.start ≤ t ∧ t < s.stop := by
  intro t
  rw [findBusyFromFreeSlots_cover]
  constructor
  · rintro ⟨h1, h2, h3⟩
    have hfc : ¬ memU (findFreeSlots slots dayStart ws we) t := by
      rintro ⟨iv, hiv, hp1, hp2⟩
      exact h3 ⟨⟨"Free", iv.start, iv.stop⟩, List.mem_map_of_mem _ hiv, rfl, hp1, hp2⟩
    have hbusy : busyCovers slots t := by
      by_contra hnb
      exact hfc ((findFreeSlots_cover slots dayStart ws we t).mpr ⟨h1, h2, hnb⟩)
    obtain ⟨s, hs, _, hc⟩ := hbusy
    exact ⟨s, hs, hc⟩
  · rintro ⟨s, hs, hc1, hc2⟩
    have hwin := hcont s hs
    refine ⟨le_trans hwin.1 hc1, lt_of_lt_of_le hc2 hwin.2, ?_⟩
    rintro ⟨it, hit, _, hp1, hp2⟩
    obtain ⟨iv, hiv, rfl⟩ := List.mem_map.mp hit
    have hcov := (findFreeSlots_cover slots dayStart ws we t).mp ⟨iv, hiv, hp1, hp2⟩
    exact hcov.2.2 ⟨s, hs, hall s hs, hc1, hc2⟩

/-- C6 counterexample: the claim quantifies over every input, but an
inverted slot (`end` before `start`, here busy from 13:00 back to 10:00)
makes `findFreeSlots` emit `[09:00,13:00)` followed by `[10:00,17:00)`:
the second interval starts (10:00 = 36000000) strictly before the first
ends (13:00 = 46800000), so the output contains two overlapping
intervals. -/
theorem c6_counterexample :
    findFreeSlots [⟨"Busy", 46800000, 36000000⟩] 0 9 17 =
      [⟨32400000, 46800000⟩, ⟨36000000, 61200000⟩] ∧
    (36000000 : Int) < 46800000 := by decide

/-- C6 amended: for every input whose intervals are well-formed
(`start ≤ end` — overlapping and out-of-order inputs included) and, for
`parseAvailabilityView`, a positive bucket width, the three functions
return nonempty intervals that are pairwise disjoint and in ascending
start order; the sweep cursor only advances forward. -/
theorem c6_sorted_disjoint (slots : List FreeBusySlot) (items : List ScheduleItem)
    (view : String) (dayStart ws we sD w : Int)
    (hwfS : ∀ s ∈ slots, s.status ≠ "Free" → s.start ≤ s.stop)
    (hwfI : ∀ i ∈ items, i.status = "Free" → i.start ≤ i.stop)
    (hw : 0 < w) :
    ((findFreeSlots slots dayStart ws we).Pairwise (fun a b => a.stop ≤ b.start) ∧
      ∀ iv ∈ findFreeSlots slots dayStart ws we, iv.start < iv.stop) ∧
    ((findBusyFromFreeSlots items dayStart ws we).Pairwise
        (fun a b => a.endTime ≤ b.startTime) ∧
      ∀ o ∈ findBusyFromFreeSlots items dayStart ws we, o.startTime < o.endTime) ∧
    ((parseAvailabilityView view sD w).Pairwise (fun a b => a.stop ≤ b.start) ∧
      ∀ r ∈ parseAvailabilityView view sD w, r.start < r.stop) := by
  obtain ⟨hC, hS⟩ := parseAvailabilityView_chain view sD w hw
  exact ⟨⟨findFreeSlots_pairwise_le hwfS,
      fun iv hiv => (findFreeSlots_mem_window slots dayStart ws we iv hiv).2.1⟩,
    ⟨findBusyFromFreeSlots_pairwise_le hwfI,
      fun o ho => (findBusyFromFreeSlots_mem_window items dayStart ws we o ho).2.1⟩,
    availBlocks_pairwise_of_chain' (hC.imp (fun _ _ h => h.1)) (fun r hr => (hS r hr).2),
    fun r hr => (hS r hr).2⟩

/-- C7: the free-slot duration is `round((end - start) / 60000)` whole
minutes (characterized by the half-minute rounding bounds), rendered as
`{h}h {m}m` with the minutes term omitted when zero and the hours term
omitted when zero, defaulting to the `0m` style; 90 minutes renders as
`1h 30m`, 45 minutes as `45m`, and 0 minutes as `0m`. -/
theorem c7_duration_format :
    (∀ s e m : Int, 0 ≤ m → e - s = 60000 * m →
      durationMinutes s e = m ∧
      (0 < m / 60 → 0 < m % 60 →
        durationString s e = toString (m / 60) ++ "h " ++ toString (m % 60) ++ "m") ∧
      (0 < m / 60 → m % 60 = 0 → durationString s e = toString (m / 60) ++ "h") ∧
      (m / 60 = 0 → durationString s e = toString (m % 60) ++ "m")) ∧
    (∀ s e : Int, 60000 * durationMinutes s e - 30000 ≤ e - s ∧
      e - s < 60000 * durationMinutes s e + 30000) ∧
    durationString 0 5400000 = "1h 30m" ∧
    durationString 0 2700000 = "45m" ∧
    durationString 0 0 = "0m" := by
  refine ⟨?_, ?_, by decide, by decide, by decide⟩
  · intro s e m hm he
    have hd : durationMinutes s e = m := by
      unfold durationMinutes
      omega
    have htm : Int.tmod m 60 = m % 60 := Int.tmod_eq_emod hm (by norm_num)
    refine ⟨hd, ?_, ?_, ?_⟩
    · intro h1 h2
      simp only [durationString, hd, htm]
      rw [if_pos h1, if_pos h2]
      simp only [← String.append_assoc]
      rw [String.append_assoc (toString (m / 60)) "h" " "]
      rfl
    · intro h1 h2
      simp only [durationString, hd, htm]
      rw [if_pos h1, if_neg (by omega), String.append_empty]
    · intro h1
      simp only [durationString, hd, htm]
      rw [if_neg (by omega)]
  · intro s e
    unfold durationMinutes
    omega

/-- C8: a day argument that is neither `today` nor `tomorrow`
(case-insensitively) and that the host date parser rejects makes
`getDateRange` fall back to today: it returns the current date's range
from 00:00:00.000 to 23:59:59.999. -/
theorem c8_invalid_day_fallback (parseDate : String → Option JsDate) (now : JsDate)
    (day : String)
    (h1 : jsToLowerCase day ≠ "today") (h2 : jsToLowerCase day ≠ "tomorrow")
    (h3 : parseDate day = none) :
    getDateRange parseDate now day = (⟨now.day, 0⟩, ⟨now.day, 86399999⟩) := by
  unfold getDateRange
  rw [if_neg h1, if_neg h2, h3]

/-- C9: a degenerate or inverted work window (`workStart` hour at or above
`workEnd` hour) makes both `findFreeSlots` and `findBusyFromFreeSlots`
return the empty list for every input — the open question about
`start_hour >= end_hour` resolves to a zero-width window, never an
error. -/
theorem c9_degenerate_window (slots : List FreeBusySlot) (items : List ScheduleItem)
    (dayStart ws we : Int) (h : we ≤ ws) :
    findFreeSlots slots dayStart ws we = [] ∧
      findBusyFromFreeSlots items dayStart ws we = [] := by
  have hle : atHour dayStart we ≤ atHour dayStart ws := by
    unfold atHour
    omega
  constructor
  · unfold findFreeSlots
    rw [freeSweep_eq_sweepGaps]
    refine sweepGaps_empty _ _ _ _ hle le_rfl ?_
    intro b hb
    have hp := (List.mem_filter.mp hb).2
    simp only [Bool.and_eq_true, decide_eq_true_eq] at hp
    exact hp.2
  · unfold findBusyFromFreeSlots
    rw [gapSweep_eq_sweepGaps]
    rw [sweepGaps_empty _ _ _ _ hle le_rfl ?_]
    · rfl
    · intro b hb
      have hp := (List.mem_filter.mp (sortByStart_mem.mp hb)).2
      simp only [Bool.and_eq_true, decide_eq_true_eq] at hp
      exact hp.2

/-- C10: `findBusyFromFreeSlots` performs the `Free`-status filter itself:
two inputs with the same subsequence of exactly-`Free` items give the same
output, so non-`Free` items never influence it; dually `findFreeSlots`
depends only on the subsequence of non-`Free` slots. -/
theorem c10_free_filter_noninterference :
    (∀ (l1 l2 : List ScheduleItem) (dayStart ws we : Int),
      l1.filter (fun i => i.status == "Free") = l2.filter (fun i => i.status == "Free") →
      findBusyFromFreeSlots l1 dayStart ws we = findBusyFromFreeSlots l2 dayStart ws we) ∧
    (∀ (s1 s2 : List FreeBusySlot) (dayStart ws we : Int),
      s1.filter (fun s => s.status != "Free") = s2.filter (fun s => s.status != "Free") →
      findFreeSlots s1 dayStart ws we = findFreeSlots s2 dayStart ws we) := by
  constructor
  · intro l1 l2 d ws we h
    unfold findBusyFromFreeSlots
    rw [h]
  · intro s1 s2 d ws we h
    unfold findFreeSlots
    rw [h]

theorem c1_free_slot_extractor_witness :
    (∀ s ∈ ([⟨"Busy", 36000000, 37800000⟩, ⟨"Tentative", 46800000, 50400000⟩] :
        List FreeBusySlot), s.status ≠ "Free" → s.start < s.stop) ∧
    findFreeSlots [⟨"Busy", 36000000, 37800000⟩, ⟨"Tentative", 46800000, 50400000⟩] 0 9 17 =
      [⟨32400000, 36000000⟩, ⟨37800000, 46800000⟩, ⟨50400000, 61200000⟩] :=
  ⟨by decide,
    (c1_free_slot_extractor
      [⟨"Busy", 36000000, 37800000⟩, ⟨"Tentative", 46800000, 50400000⟩] 0 9 17
      (by decide)).2.2.2.2⟩

theorem c2_gap_inverter_witness :
    (∀ i ∈ ([⟨"Free", 32400000, 43200000⟩] : List ScheduleItem),
      i.status = "Free" → i.start < i.stop) ∧
    findBusyFromFreeSlots [⟨"Free", 32400000, 43200000⟩] 0 9 17 =
      specGapInverter [⟨"Free", 32400000, 43200000⟩] 0 9 17 :=
  ⟨by decide, (c2_gap_inverter [⟨"Free", 32400000, 43200000⟩] 0 9 17 (by decide)).1⟩

theorem c3_availability_decoder_witness :
    (0 : Int) < 30 ∧
    (List.Chain' (fun a b => a.stop ≤ b.start ∧ (a.status = b.status → a.stop < b.start))
        (parseAvailabilityView "0022110" 0 30) ∧
      ∀ r ∈ parseAvailabilityView "0022110" 0 30, r.status ≠ "Free" ∧ r.start < r.stop) :=
  ⟨by decide, c3_availability_decoder.1 "0022110" 0 30 (by decide)⟩

theorem c4_complementary_tiling_witness :
    (∀ s ∈ ([⟨"Busy", 36000000, 37800000⟩] : List FreeBusySlot),
      s.status ≠ "Free" → s.start < s.stop) ∧
    (∀ i ∈ ([⟨"Free", 32400000, 36000000⟩, ⟨"Free", 37800000, 61200000⟩] :
        List ScheduleItem), i.status = "Free" → i.start < i.stop) ∧
    (∀ t, atHour 0 9 ≤ t → t < atHour 0 17 →
      (busyCovers [⟨"Busy", 36000000, 37800000⟩] t ↔
        ¬ freeCovers [⟨"Free", 32400000, 36000000⟩, ⟨"Free", 37800000, 61200000⟩] t)) ∧
    (∀ t, atHour 0 9 ≤ t → t < atHour 0 17 →
      (memU (findFreeSlots [⟨"Busy", 36000000, 37800000⟩] 0 9 17) t ↔
        ¬ memUB (findBusyFromFreeSlots
          [⟨"Free", 32400000, 36000000⟩, ⟨"Free", 37800000, 61200000⟩] 0 9 17) t)) := by
  have hcomp0 : ∀ t, atHour 0 9 ≤ t → t < atHour 0 17 →
      (busyCovers [⟨"Busy", 36000000, 37800000⟩] t ↔
        ¬ freeCovers [⟨"Free", 32400000, 36000000⟩, ⟨"Free", 37800000, 61200000⟩] t) := by
    intro t h1 h2
    unfold atHour at h1 h2
    unfold busyCovers freeCovers
    simp only [List.mem_cons, List.not_mem_nil, or_false]
    constructor
    · rintro ⟨s, rfl, -, hc1, hc2⟩ ⟨i, hi, -, hd1, hd2⟩
      dsimp at hc1 hc2
      rcases hi with rfl | rfl <;> dsimp at hd1 hd2 <;> omega
    · intro hnf
      by_cases hcase1 : t < 36000000
      · exact absurd
          ⟨⟨"Free", 32400000, 36000000⟩, Or.inl rfl, rfl, by dsimp; omega, by dsimp; omega⟩
          hnf
      · by_cases hcase2 : t < 37800000
        · exact ⟨⟨"Busy", 36000000, 37800000⟩, rfl, by decide, by dsimp; omega,
            by dsimp; omega⟩
        · exact absurd
            ⟨⟨"Free", 37800000, 61200000⟩, Or.inr rfl, rfl, by dsimp; omega, by dsimp; omega⟩
            hnf
  exact ⟨by decide, by decide, hcomp0,
    (c4_complementary_tiling [⟨"Busy", 36000000, 37800000⟩]
      [⟨"Free", 32400000, 36000000⟩, ⟨"Free", 37800000, 61200000⟩] 0 9 17
      (by decide) (by decide) hcomp0).1⟩

theorem c5_round_trip_witness :
    (∀ s ∈ ([⟨"Busy", 36000000, 37800000⟩] : List FreeBusySlot), s.status ≠ "Free") ∧
    ([⟨"Busy", 36000000, 37800000⟩] : List FreeBusySlot).Pairwise
      (fun a b => a.stop ≤ b.start) ∧
    (∀ s ∈ ([⟨"Busy", 36000000, 37800000⟩] : List FreeBusySlot),
      atHour 0 9 ≤ s.start ∧ s.stop ≤ atHour 0 17) ∧
    (∀ t, memUB (findBusyFromFreeSlots
        ((findFreeSlots [⟨"Busy", 36000000, 37800000⟩] 0 9 17).map
          (fun iv => (⟨"Free", iv.start, iv.stop⟩ : ScheduleItem))) 0 9 17) t ↔
      ∃ s ∈ ([⟨"Busy", 36000000, 37800000⟩] : List FreeBusySlot),
        s.start ≤ t ∧ t < s.stop) := by
  have hsorted : ([⟨"Busy", 36000000, 37800000⟩] : List FreeBusySlot).Pairwise
      (fun a b => a.stop ≤ b.start) := by simp
  exact ⟨by decide, hsorted, by decide,
    c5_round_trip [⟨"Busy", 36000000, 37800000⟩] 0 9 17 (by decide) hsorted (by decide)⟩

theorem c6_sorted_disjoint_witness :
    (∀ s ∈ ([⟨"Busy", 40000000, 50000000⟩, ⟨"Tentative", 36000000, 46800000⟩] :
        List FreeBusySlot), s.status ≠ "Free" → s.start ≤ s.stop) ∧
    (∀ i ∈ ([⟨"Free", 40000000, 43200000⟩, ⟨"Free", 33000000, 42000000⟩] :
        List ScheduleItem), i.status = "Free" → i.start ≤ i.stop) ∧
    (0 : Int) < 30 ∧
    ((findFreeSlots [⟨"Busy", 40000000, 50000000⟩, ⟨"Tentative", 36000000, 46800000⟩]
        0 9 17).Pairwise (fun a b => a.stop ≤ b.start) ∧
      ∀ iv ∈ findFreeSlots [⟨"Busy", 40000000, 50000000⟩, ⟨"Tentative", 36000000, 46800000⟩]
        0 9 17, iv.start < iv.stop) :=
  ⟨by decide, by decide, by decide,
    (c6_sorted_disjoint [⟨"Busy", 40000000, 50000000⟩, ⟨"Tentative", 36000000, 46800000⟩]
      [⟨"Free", 40000000, 43200000⟩, ⟨"Free", 33000000, 42000000⟩] "0022110" 0 9 17 0 30
      (by decide) (by decide) (by decide)).1⟩

theorem c7_duration_format_witness :
    (0 : Int) ≤ 90 ∧ (5400000 : Int) - 0 = 60000 * 90 ∧
    (durationMinutes 0 5400000 = 90 ∧
      (0 < (90 : Int) / 60 → 0 < (90 : Int) % 60 →
        durationString 0 5400000 =
          toString ((90 : Int) / 60) ++ "h " ++ toString ((90 : Int) % 60) ++ "m") ∧
      (0 < (90 : Int) / 60 → (90 : Int) % 60 = 0 →
        durationString 0 5400000 = toString ((90 : Int) / 60) ++ "h") ∧
      ((90 : Int) / 60 = 0 →
        durationString 0 5400000 = toString ((90 : Int) % 60) ++ "m")) :=
  ⟨by decide, by decide, c7_duration_format.1 0 5400000 90 (by decide) (by decide)⟩

theorem c8_invalid_day_fallback_witness :
    jsToLowerCase "GARBAGE-day" ≠ "today" ∧ jsToLowerCase "GARBAGE-day" ≠ "tomorrow" ∧
    getDateRange (fun _ => none) ⟨7, 555⟩ "GARBAGE-day" = (⟨7, 0⟩, ⟨7, 86399999⟩) :=
  ⟨by decide, by decide,
    c8_invalid_day_fallback (fun _ => none) ⟨7, 555⟩ "GARBAGE-day"
      (by decide) (by decide) rfl⟩

theorem c9_degenerate_window_witness :
    (9 : Int) ≤ 17 ∧
    (findFreeSlots [⟨"Busy", 36000000, 37800000⟩] 0 17 9 = [] ∧
      findBusyFromFreeSlots [⟨"Free", 32400000, 43200000⟩] 0 17 9 = []) :=
  ⟨by decide,
    c9_degenerate_window [⟨"Busy", 36000000, 37800000⟩] [⟨"Free", 32400000, 43200000⟩]
      0 17 9 (by decide)⟩

theorem c10_free_filter_noninterference_witness :
    ([⟨"Free", 32400000, 43200000⟩, ⟨"Busy", 1, 2⟩] : List ScheduleItem).filter
        (fun i => i.status == "Free") =
      ([⟨"Tentative", 5, 6⟩, ⟨"Free", 32400000, 43200000⟩] : List ScheduleItem).filter
        (fun i => i.status == "Free") ∧
    findBusyFromFreeSlots [⟨"Free", 32400000, 43200000⟩, ⟨"Busy", 1, 2⟩] 0 9 17 =
      findBusyFromFreeSlots [⟨"Tentative", 5, 6⟩, ⟨"Free", 32400000, 43200000⟩] 0 9 17 :=
  ⟨by decide, c10_free_filter_noninterference.1 _ _ 0 9 17 (by decide)⟩

end Clippy
